import Mathlib

/-!
Verification of the repository layer of the `my-todo` backend
(`src/repositories/todo.rs`, `src/repositories/label.rs`): the row
aggregator `fold_entities`, the in-memory todo repository
(`TodoRepositoryForMemory`) and the label repositories.

Machine `i32` ids are modelled as `Int`; Rust `HashMap<i32, _>` is
modelled as an association list with unique keys, with insert-overwrite,
lookup and remove mirroring `HashMap::insert/get/remove`; a fallible
operation returns its error through `Except`, and an operation that can
panic (the `unwrap` in `fold_entities`) returns `Option`, `none` being
the panic.
-/

namespace TodoApp

/-- Label entity (`label.rs`, `pub struct Label { id, name }`). -/
structure Label where
  id : Int
  name : String
deriving DecidableEq

/-- Flat join row (`todo.rs`, `TodoWithLabelFromRow`): a todo's scalar
fields plus at most one (label_id, label_name) pair from the left outer
join. -/
structure TodoWithLabelFromRow where
  id : Int
  text : String
  completed : Bool
  label_id : Option Int
  label_name : Option String
deriving DecidableEq

/-- Nested domain object (`todo.rs`, `TodoEntity`). -/
structure TodoEntity where
  id : Int
  text : String
  completed : Bool
  labels : List Label
deriving DecidableEq

/-- Creation payload (`todo.rs`, `CreateTodo { text, label_ids }`). -/
structure CreateTodo where
  text : String
  label_ids : List Int
deriving DecidableEq

/-- Partial-update payload (`todo.rs`, `UpdateTodo`): absent fields mean
"preserve the current value". -/
structure UpdateTodo where
  text : Option String
  completed : Option Bool
  label_ids : Option (List Int)
deriving DecidableEq

/-- Error taxonomy (`repositories.rs` / spec §7). -/
inductive RepositoryError where
  | NotFound (id : Int)
  | Duplicate (id : Int)
  | Unexpected (msg : String)
deriving DecidableEq

/-- The mutation performed through `acc.iter_mut().find(|todo| todo.id == cur.id)`
in `fold_entities`: append `lb` to the labels of the first entity whose id
is `i`, leaving everything else unchanged. -/
def pushLabel : List TodoEntity → Int → Label → List TodoEntity
  | [], _, _ => []
  | e :: rest, i, lb =>
    if e.id = i then { e with labels := e.labels ++ [lb] } :: rest
    else e :: pushLabel rest i lb

/-- One iteration of the fold in `fold_entities` (`todo.rs:42-73`).
The result is `none` exactly when the code would panic in
`cur.label_name.clone().unwrap()`, i.e. when the row carries a non-null
`label_id` with a null `label_name`. -/
def foldStep (acc : List TodoEntity) (cur : TodoWithLabelFromRow) :
    Option (List TodoEntity) :=
  if acc.any (fun t => t.id == cur.id) then
    match cur.label_id, cur.label_name with
    | none, _ => some acc
    | some lid, some nm => some (pushLabel acc cur.id ⟨lid, nm⟩)
    | some _, none => none
  else
    match cur.label_id, cur.label_name with
    | none, _ => some (acc ++ [⟨cur.id, cur.text, cur.completed, []⟩])
    | some lid, some nm => some (acc ++ [⟨cur.id, cur.text, cur.completed, [⟨lid, nm⟩]⟩])
    | some _, none => none

/-- The fold of `fold_entities` starting from an arbitrary accumulator. -/
def foldEntitiesFrom (acc : List TodoEntity) :
    List TodoWithLabelFromRow → Option (List TodoEntity)
  | [] => some acc
  | r :: rest => (foldStep acc r).bind (fun a => foldEntitiesFrom a rest)

/-- Row aggregator `fold_entities` (`todo.rs:42-73`). -/
def fold_entities (rows : List TodoWithLabelFromRow) : Option (List TodoEntity) :=
  foldEntitiesFrom [] rows

/-- The (label_id, label_name) pair a row carries, when both are non-null. -/
def rowLabel (r : TodoWithLabelFromRow) : Option Label :=
  match r.label_id, r.label_name with
  | some lid, some nm => some ⟨lid, nm⟩
  | _, _ => none

/-- All non-null label pairs of the rows bearing id `i`, in input order. -/
def rowLabels (rows : List TodoWithLabelFromRow) (i : Int) : List Label :=
  (rows.filter (fun r => r.id == i)).filterMap rowLabel

/-- The entity the aggregation should produce for id `i`: the scalar
fields of the first row bearing `i`, with all of `i`'s label pairs. -/
def specEntity (rows : List TodoWithLabelFromRow) (i : Int) : TodoEntity :=
  match rows.find? (fun r => r.id == i) with
  | some r => ⟨i, r.text, r.completed, rowLabels rows i⟩
  | none => ⟨i, "", false, []⟩

/-- Deduplication keeping first occurrences, accumulating the ids already
seen. -/
def dedupFirstAux : List Int → List Int → List Int
  | _, [] => []
  | seen, i :: rest =>
    if i ∈ seen then dedupFirstAux seen rest
    else i :: dedupFirstAux (i :: seen) rest

/-- The distinct elements of `l` in order of first occurrence. -/
def dedupFirst (l : List Int) : List Int := dedupFirstAux [] l

/-- Intended result of the aggregation: one entity per distinct todo id,
in first-occurrence order. -/
def foldSpec (rows : List TodoWithLabelFromRow) : List TodoEntity :=
  (dedupFirst (rows.map TodoWithLabelFromRow.id)).map (specEntity rows)

/-- Join precondition (spec §7): a row with a non-null `label_id` also has
a non-null `label_name`. -/
def WfRows (rows : List TodoWithLabelFromRow) : Prop :=
  ∀ r ∈ rows, r.label_id.isSome = true → r.label_name.isSome = true

/-- Lookup mirroring `HashMap::get`. -/
def mapGet {α : Type} (s : List (Int × α)) (k : Int) : Option α :=
  match s.find? (fun p => p.1 == k) with
  | some p => some p.2
  | none => none

/-- Insert mirroring `HashMap::insert`: overwrite the existing entry for
`k` if present, otherwise add a new one. -/
def mapInsert {α : Type} (s : List (Int × α)) (k : Int) (v : α) : List (Int × α) :=
  if s.any (fun p => p.1 == k) then
    s.map (fun p => if p.1 == k then (k, v) else p)
  else s ++ [(k, v)]

/-- Removal mirroring `HashMap::remove` (a no-op on an absent key). -/
def mapRemove {α : Type} (s : List (Int × α)) (k : Int) : List (Int × α) :=
  s.filter (fun p => ! (p.1 == k))

/-- State of `TodoRepositoryForMemory`: the guarded `HashMap<i32, TodoEntity>`
plus the fixed label snapshot the repository is constructed with. -/
structure MemRepo where
  store : List (Int × TodoEntity)
  labels : List Label
deriving DecidableEq

/-- `TodoRepositoryForMemory::resolve_labels` (`todo.rs:472-482`): for each
requested id, the first label of the snapshot with that id, unresolvable
ids silently dropped. -/
def resolve_labels (repo : MemRepo) (label_ids : List Int) : List Label :=
  label_ids.filterMap (fun i => repo.labels.find? (fun l => l.id == i))

/-- `TodoRepositoryForMemory::create` (`todo.rs:487-494`): id is the current
store size plus one; the call never fails. -/
def memCreate (repo : MemRepo) (payload : CreateTodo) : MemRepo × TodoEntity :=
  let id : Int := repo.store.length + 1
  let todo : TodoEntity := ⟨id, payload.text, false, resolve_labels repo payload.label_ids⟩
  ({ repo with store := mapInsert repo.store id todo }, todo)

/-- `TodoRepositoryForMemory::find` (`todo.rs:496-504`). -/
def memFind (repo : MemRepo) (i : Int) : Except RepositoryError TodoEntity :=
  match mapGet repo.store i with
  | some t => Except.ok t
  | none => Except.error (RepositoryError.NotFound i)

/-- `TodoRepositoryForMemory::update` (`todo.rs:511-528`): on a missing id
the store is left untouched and `NotFound` is returned; otherwise each
absent payload field keeps the stored value. -/
def memUpdate (repo : MemRepo) (i : Int) (payload : UpdateTodo) :
    MemRepo × Except RepositoryError TodoEntity :=
  match mapGet repo.store i with
  | none => (repo, Except.error (RepositoryError.NotFound i))
  | some todo =>
    let text := payload.text.getD todo.text
    let completed := payload.completed.getD todo.completed
    let labels :=
      match payload.label_ids with
      | some v => resolve_labels repo v
      | none => todo.labels
    let todo' : TodoEntity := ⟨i, text, completed, labels⟩
    ({ repo with store := mapInsert repo.store i todo' }, Except.ok todo')

/-- `TodoRepositoryForMemory::delete` (`todo.rs:530-534`): `HashMap::remove`
then `ok_or(NotFound)`; the store is untouched when the id is absent. -/
def memDelete (repo : MemRepo) (i : Int) : MemRepo × Except RepositoryError Unit :=
  match mapGet repo.store i with
  | some _ => ({ repo with store := mapRemove repo.store i }, Except.ok ())
  | none => (repo, Except.error (RepositoryError.NotFound i))

/-- An operation of the todo repository contract that mutates the store. -/
inductive Op where
  | create (p : CreateTodo)
  | update (i : Int) (u : UpdateTodo)
  | delete (i : Int)
deriving DecidableEq

/-- Run a sequence of mutating operations and collect the ids the `create`
calls returned, in order. -/
def runOps : MemRepo → List Op → MemRepo × List Int
  | s, [] => (s, [])
  | s, Op.create p :: rest =>
    let c := memCreate s p
    let r := runOps c.1 rest
    (r.1, c.2.id :: r.2)
  | s, Op.update i u :: rest => runOps (memUpdate s i u).1 rest
  | s, Op.delete i :: rest => runOps (memDelete s i).1 rest

/-- Canonical key shape of a store reached without deletes: keys are
pairwise distinct and lie in 1..size. -/
def goodKeys {α : Type} (s : List (Int × α)) : Prop :=
  (∀ p ∈ s, 1 ≤ p.1 ∧ p.1 ≤ (s.length : Int)) ∧ (s.map Prod.fst).Nodup

/-- State of `LabelRepositoryForMemory` (`label.rs`, `test_utils`). -/
structure LabelMemRepo where
  data : List (Int × Label)
deriving DecidableEq

/-- `LabelRepositoryForMemory::create` (`label.rs:177-183`): assigns
id = size + 1 and inserts, with no duplicate-name check; never fails. -/
def labelMemCreate (repo : LabelMemRepo) (name : String) : LabelMemRepo × Label :=
  let id : Int := repo.data.length + 1
  let label : Label := ⟨id, name⟩
  (⟨mapInsert repo.data id label⟩, label)

/-- `LabelRepositoryForMemory::delete` (`label.rs:191-195`): unconditional
`HashMap::remove`, result always `Ok(())`. -/
def labelMemDelete (repo : LabelMemRepo) (i : Int) : LabelMemRepo × Except RepositoryError Unit :=
  (⟨mapRemove repo.data i⟩, Except.ok ())

/-- `LabelRepositoryForDb::create` (`label.rs:42-65`) at interface level:
the label table is a list of rows; the pre-check `SELECT ... WHERE NAME = $1`
finds an existing row with the requested name and yields `Duplicate` with
its id, leaving the table unchanged; otherwise the insert appends a row
whose server-assigned id is `newId`. -/
def dbLabelCreate (table : List Label) (name : String) (newId : Int) :
    Except RepositoryError (List Label × Label) :=
  match table.find? (fun l => l.name == name) with
  | some l => Except.error (RepositoryError.Duplicate l.id)
  | none => Except.ok (table ++ [⟨newId, name⟩], ⟨newId, name⟩)

/-- Store invariant: every entity is keyed by its own id. -/
def keyedOk (s : List (Int × TodoEntity)) : Prop := ∀ p ∈ s, p.2.id = p.1

theorem find?_replace_self {α : Type} (s : List (Int × α)) (k : Int) (v : α)
    (h : s.any (fun p => p.1 == k) = true) :
    (s.map (fun p => if p.1 == k then (k, v) else p)).find? (fun p => p.1 == k) = some (k, v) := by
  induction s with
  | nil => simp at h
  | cons q rest ih =>
    by_cases hq : (q.1 == k) = true
    · have hq' : (if (q.1 == k) = true then (k, v) else q) = (k, v) := by simp [hq]
      rw [List.map_cons, hq', List.find?_cons_of_pos _ (by simp)]
    · have hq0 : (q.1 == k) = false := by simpa using hq
      have hq' : (if (q.1 == k) = true then (k, v) else q) = q := by simp [hq0]
      have hrest : rest.any (fun p => p.1 == k) = true := by
        simpa [hq0] using h
      rw [List.map_cons, hq']
      simp only [List.find?_cons, hq0]
      exact ih hrest

theorem find?_none_of_any_false {α : Type} (s : List (Int × α)) (k : Int)
    (h : s.any (fun p => p.1 == k) = false) :
    s.find? (fun p => p.1 == k) = none := by
  rw [List.find?_eq_none]
  intro p hp hpk
  rw [List.any_eq_false] at h
  exact h p hp hpk

theorem mapGet_mapInsert_self {α : Type} (s : List (Int × α)) (k : Int) (v : α) :
    mapGet (mapInsert s k v) k = some v := by
  unfold mapInsert
  by_cases h : s.any (fun p => p.1 == k) = true
  · rw [if_pos h]
    unfold mapGet
    rw [find?_replace_self s k v h]
  · rw [if_neg h]
    unfold mapGet
    rw [List.find?_append, find?_none_of_any_false s k (by simpa only [Bool.not_eq_true] using h)]
    simp [List.find?]

theorem mapGet_mapRemove_self {α : Type} (s : List (Int × α)) (k : Int) :
    mapGet (mapRemove s k) k = none := by
  unfold mapGet mapRemove
  rw [List.find?_eq_none.mpr]
  · intro p hp
    have := (List.mem_filter.mp hp).2
    simpa using this

theorem find?_filter_ne {α : Type} (s : List (Int × α)) (k j : Int) (h : j ≠ k) :
    (s.filter (fun p => ! (p.1 == k))).find? (fun p => p.1 == j)
      = s.find? (fun p => p.1 == j) := by
  induction s with
  | nil => rfl
  | cons q rest ih =>
    rw [List.filter_cons]
    by_cases hqk : (q.1 == k) = true
    · have hqj : ¬ ((q.1 == j) = true) := by
        intro hj
        have h1 : q.1 = k := by simpa using hqk
        have h2 : q.1 = j := by simpa using hj
        exact h (by omega)
      have hqj0 : (q.1 == j) = false := by simpa using hqj
      rw [if_neg (by simp [hqk])]
      simp only [List.find?_cons, hqj0]
      exact ih
    · have hqk0 : (q.1 == k) = false := by simpa using hqk
      rw [if_pos (by simp [hqk0])]
      by_cases hqj : (q.1 == j) = true
      · simp only [List.find?_cons, hqj]
      · have hqj0 : (q.1 == j) = false := by simpa using hqj
        simp only [List.find?_cons, hqj0]
        exact ih

theorem mapGet_mapRemove_ne {α : Type} (s : List (Int × α)) (k j : Int) (h : j ≠ k) :
    mapGet (mapRemove s k) j = mapGet s j := by
  unfold mapGet mapRemove
  rw [find?_filter_ne s k j h]

theorem mapGet_none_iff {α : Type} (s : List (Int × α)) (k : Int) :
    mapGet s k = none ↔ ∀ p ∈ s, p.1 ≠ k := by
  unfold mapGet
  constructor
  · intro h p hp
    cases hf : s.find? (fun p => p.1 == k) with
    | some q => rw [hf] at h; cases h
    | none =>
      intro hk
      have := List.find?_eq_none.mp hf p hp
      simp [hk] at this
  · intro h
    rw [List.find?_eq_none.mpr]
    intro p hp
    simpa using h p hp

theorem mapGet_some_mem {α : Type} (s : List (Int × α)) (k : Int) (v : α)
    (h : mapGet s k = some v) : (k, v) ∈ s := by
  unfold mapGet at h
  cases hf : s.find? (fun p => p.1 == k) with
  | none => rw [hf] at h; cases h
  | some q =>
    rw [hf] at h
    have hm := List.mem_of_find?_eq_some hf
    have hk : q.1 = k := by have := List.find?_some hf; simpa using this
    have hv : q.2 = v := by cases h; rfl
    have : (k, v) = q := by
      cases q; simp_all
    rw [this]; exact hm

theorem any_true_of_mapGet_some {α : Type} (s : List (Int × α)) (k : Int) (v : α)
    (h : mapGet s k = some v) : s.any (fun p => p.1 == k) = true := by
  rw [List.any_eq_true]
  exact ⟨(k, v), mapGet_some_mem s k v h, by simp⟩

/-- C4: partial update on the in-memory store preserves every field the
`UpdateTodo` payload leaves absent; the id is unchanged in all cases. -/
theorem memUpdate_preserves_absent (repo : MemRepo) (i : Int) (T : TodoEntity)
    (U : UpdateTodo) (h : memFind repo i = Except.ok T) :
    ∃ e, (memUpdate repo i U).2 = Except.ok e ∧ e.id = i ∧
      (U.text = none → e.text = T.text) ∧
      (U.completed = none → e.completed = T.completed) ∧
      (U.label_ids = none → e.labels = T.labels) := by
  unfold memFind at h
  cases hg : mapGet repo.store i with
  | none => rw [hg] at h; cases h
  | some t =>
    rw [hg] at h
    have ht : t = T := by cases h; rfl
    subst ht
    unfold memUpdate
    rw [hg]
    refine ⟨_, rfl, rfl, ?_, ?_, ?_⟩
    · intro hx; simp [hx]
    · intro hx; simp [hx]
    · intro hx; simp [hx]

/-- C4 witness: a concrete todo and an all-absent payload are preserved. -/
theorem memUpdate_preserves_absent_witness :
    ∃ e, (memUpdate ⟨[(1, ⟨1, "t", true, []⟩)], []⟩ 1 ⟨none, none, none⟩).2 = Except.ok e ∧
      e.id = 1 ∧
      ((none : Option String) = none → e.text = "t") ∧
      ((none : Option Bool) = none → e.completed = true) ∧
      ((none : Option (List Int)) = none → e.labels = []) := by
  have h := memUpdate_preserves_absent ⟨[(1, ⟨1, "t", true, []⟩)], []⟩ 1
    ⟨1, "t", true, []⟩ ⟨none, none, none⟩ (by rfl)
  obtain ⟨e, h1, h2, h3, h4, h5⟩ := h
  exact ⟨e, h1, h2, h3, h4, h5⟩

/-- C5: on the in-memory store, `create` then `find` of the returned id
yields exactly the entity `create` returned. -/
theorem memCreate_find_roundtrip (repo : MemRepo) (p : CreateTodo) :
    memFind (memCreate repo p).1 (memCreate repo p).2.id = Except.ok (memCreate repo p).2 := by
  unfold memFind
  rw [show (memCreate repo p).1.store
      = mapInsert repo.store ((repo.store.length : Int) + 1) (memCreate repo p).2 from rfl]
  rw [show (memCreate repo p).2.id = (repo.store.length : Int) + 1 from rfl]
  rw [mapGet_mapInsert_self]

/-- C6: a successful in-memory `delete(id)` makes a subsequent `find(id)`
fail with `NotFound(id)`; and on an absent id, `delete(id)` itself fails
with `NotFound(id)` and leaves the store unchanged. -/
theorem memDelete_final (repo : MemRepo) (i : Int) :
    ((memDelete repo i).2 = Except.ok () →
      memFind (memDelete repo i).1 i = Except.error (RepositoryError.NotFound i)) ∧
    (mapGet repo.store i = none →
      (memDelete repo i).2 = Except.error (RepositoryError.NotFound i) ∧
        (memDelete repo i).1 = repo) := by
  unfold memDelete
  cases hg : mapGet repo.store i with
  | some t =>
    refine ⟨fun _ => ?_, fun hn => by simp at hn⟩
    show memFind { repo with store := mapRemove repo.store i } i = _
    simp [memFind, mapGet_mapRemove_self]
  | none =>
    exact ⟨fun hok => by simp at hok, fun _ => ⟨rfl, rfl⟩⟩

/-- C6 witness: deleting the only todo makes `find` return `NotFound`, and
deleting from the empty store fails with `NotFound` leaving it unchanged. -/
theorem memDelete_final_witness :
    memFind (memDelete ⟨[(1, ⟨1, "t", false, []⟩)], []⟩ 1).1 1
      = Except.error (RepositoryError.NotFound 1) ∧
    ((memDelete (⟨[], []⟩ : MemRepo) 2).2 = Except.error (RepositoryError.NotFound 2) ∧
      (memDelete (⟨[], []⟩ : MemRepo) 2).1 = (⟨[], []⟩ : MemRepo)) := by
  exact ⟨(memDelete_final ⟨[(1, ⟨1, "t", false, []⟩)], []⟩ 1).1 (by rfl),
    (memDelete_final (⟨[], []⟩ : MemRepo) 2).2 (by rfl)⟩

/-- C9: the in-memory label `delete` always succeeds: the label with the
requested id (if any) is removed, every other id is untouched, and on an
absent id the store is left exactly as it was. -/
theorem labelMemDelete_idempotent (repo : LabelMemRepo) (i : Int) :
    (labelMemDelete repo i).2 = Except.ok () ∧
    mapGet (labelMemDelete repo i).1.data i = none ∧
    (∀ j, j ≠ i → mapGet (labelMemDelete repo i).1.data j = mapGet repo.data j) ∧
    (mapGet repo.data i = none → (labelMemDelete repo i).1 = repo) := by
  refine ⟨rfl, mapGet_mapRemove_self _ _, fun j hj => mapGet_mapRemove_ne _ _ _ hj, fun hn => ?_⟩
  have hd : mapRemove repo.data i = repo.data := by
    apply List.filter_eq_self.mpr
    intro p hp
    have := (mapGet_none_iff _ _).mp hn p hp
    simpa using this
  show (⟨mapRemove repo.data i⟩ : LabelMemRepo) = repo
  rw [hd]

/-- C9 witness: deleting id 1 removes it and preserves id 2; deleting from
the empty label store succeeds and changes nothing. -/
theorem labelMemDelete_idempotent_witness :
    (labelMemDelete ⟨[(1, ⟨1, "a"⟩), (2, ⟨2, "b"⟩)]⟩ 1).2 = Except.ok () ∧
    mapGet (labelMemDelete ⟨[(1, ⟨1, "a"⟩), (2, ⟨2, "b"⟩)]⟩ 1).1.data 1 = none ∧
    mapGet (labelMemDelete ⟨[(1, ⟨1, "a"⟩), (2, ⟨2, "b"⟩)]⟩ 1).1.data 2
      = mapGet [(1, (⟨1, "a"⟩ : Label)), (2, ⟨2, "b"⟩)] 2 ∧
    (labelMemDelete (⟨[]⟩ : LabelMemRepo) 7).1 = (⟨[]⟩ : LabelMemRepo) := by
  have h1 := labelMemDelete_idempotent ⟨[(1, ⟨1, "a"⟩), (2, ⟨2, "b"⟩)]⟩ 1
  have h2 := labelMemDelete_idempotent (⟨[]⟩ : LabelMemRepo) 7
  exact ⟨h1.1, h1.2.1, h1.2.2.1 2 (by decide), h2.2.2.2 (by rfl)⟩

theorem keyedOk_mapInsert (s : List (Int × TodoEntity)) (k : Int) (v : TodoEntity)
    (hk : keyedOk s) (hv : v.id = k) : keyedOk (mapInsert s k v) := by
  unfold mapInsert
  by_cases h : s.any (fun p => p.1 == k) = true
  · rw [if_pos h]
    intro p hp
    obtain ⟨q, hq, rfl⟩ := List.mem_map.mp hp
    by_cases hc : (q.1 == k) = true
    · rw [if_pos hc]
      exact hv
    · rw [if_neg hc]
      exact hk q hq
  · rw [if_neg h]
    intro p hp
    rcases List.mem_append.mp hp with h1 | h1
    · exact hk p h1
    · have hp' : p = (k, v) := by simpa using h1
      rw [hp']
      exact hv

/-- C10: every mutating operation of the in-memory todo store preserves
the invariant that each stored entity is keyed by its own id, and a
successful `find(id)` returns an entity whose id is the requested one. -/
theorem memRepo_keyed_invariant (repo : MemRepo) (i : Int) (p : CreateTodo) (u : UpdateTodo) :
    (keyedOk repo.store → keyedOk (memCreate repo p).1.store) ∧
    (keyedOk repo.store → keyedOk (memUpdate repo i u).1.store) ∧
    (keyedOk repo.store → keyedOk (memDelete repo i).1.store) ∧
    (keyedOk repo.store → ∀ e, memFind repo i = Except.ok e → e.id = i) := by
  refine ⟨?_, ?_, ?_, ?_⟩
  · intro hk
    exact keyedOk_mapInsert _ _ _ hk rfl
  · intro hk
    cases hg : mapGet repo.store i with
    | none => unfold memUpdate; rw [hg]; exact hk
    | some t => unfold memUpdate; rw [hg]; exact keyedOk_mapInsert _ _ _ hk rfl
  · intro hk
    cases hg : mapGet repo.store i with
    | none => unfold memDelete; rw [hg]; exact hk
    | some t =>
      unfold memDelete; rw [hg]
      intro q hq
      exact hk q (List.mem_filter.mp hq).1
  · intro hk e he
    unfold memFind at he
    cases hg : mapGet repo.store i with
    | none => rw [hg] at he; cases he
    | some t =>
      rw [hg] at he
      have ht : t = e := by cases he; rfl
      subst ht
      exact hk (i, t) (mapGet_some_mem repo.store i t hg)

/-- C10 witness: the invariant holds after each operation on a concrete
one-element store, and a concrete successful find returns the asked id. -/
theorem memRepo_keyed_invariant_witness :
    keyedOk (memCreate ⟨[(1, ⟨1, "a", false, []⟩)], []⟩ ⟨"b", []⟩).1.store ∧
    keyedOk (memUpdate ⟨[(1, ⟨1, "a", false, []⟩)], []⟩ 1 ⟨none, none, none⟩).1.store ∧
    keyedOk (memDelete ⟨[(1, ⟨1, "a", false, []⟩)], []⟩ 1).1.store ∧
    (⟨1, "a", false, []⟩ : TodoEntity).id = 1 := by
  have h := memRepo_keyed_invariant ⟨[(1, ⟨1, "a", false, []⟩)], []⟩ 1 ⟨"b", []⟩
    ⟨none, none, none⟩
  have hk : keyedOk [(1, (⟨1, "a", false, []⟩ : TodoEntity))] :=
    fun p hp => by rw [List.mem_singleton.mp hp]
  exact ⟨h.1 hk, h.2.1 hk, h.2.2.1 hk, h.2.2.2 hk ⟨1, "a", false, []⟩ (by rfl)⟩

/-- C8: `resolve_labels` keeps exactly the requested ids that some
snapshot label bears, in input order, silently dropping the others; each
returned label is the first snapshot label with its id. -/
theorem resolve_labels_spec (repo : MemRepo) (ids : List Int) :
    (resolve_labels repo ids).map Label.id
        = ids.filter (fun i => repo.labels.any (fun l => l.id == i)) ∧
    ∀ lb, lb ∈ resolve_labels repo ids →
      lb ∈ repo.labels ∧ repo.labels.find? (fun l => l.id == lb.id) = some lb := by
  constructor
  · induction ids with
    | nil => rfl
    | cons i rest ih =>
      unfold resolve_labels at ih ⊢
      rw [List.filterMap_cons, List.filter_cons]
      cases hf : repo.labels.find? (fun l => l.id == i) with
      | none =>
        have hany : repo.labels.any (fun l => l.id == i) = false := by
          rw [List.any_eq_false]
          intro l hl
          exact List.find?_eq_none.mp hf l hl
        rw [hany]
        simpa using ih
      | some l0 =>
        have hid : l0.id = i := by have := List.find?_some hf; simpa using this
        have hany : repo.labels.any (fun l => l.id == i) = true := by
          rw [List.any_eq_true]
          have hple := List.find?_some hf
          exact ⟨l0, List.mem_of_find?_eq_some hf, hple⟩
        rw [hany]
        simpa [hid] using ih
  · intro lb hlb
    unfold resolve_labels at hlb
    rw [List.mem_filterMap] at hlb
    obtain ⟨i, _, hf⟩ := hlb
    have hid : lb.id = i := by have := List.find?_some hf; simpa using this
    refine ⟨List.mem_of_find?_eq_some hf, ?_⟩
    rw [hid]
    exact hf

/-- C8 witness: with snapshot ids {1, 3} and request [3, 2, 1], the
resolved ids are [3, 1]; label 3 is returned as the first snapshot label
with id 3. -/
theorem resolve_labels_spec_witness :
    (resolve_labels ⟨[], [⟨1, "a"⟩, ⟨3, "c"⟩]⟩ [3, 2, 1]).map Label.id
        = [3, 2, 1].filter
            (fun i => [(⟨1, "a"⟩ : Label), ⟨3, "c"⟩].any (fun l => l.id == i)) ∧
    ((⟨3, "c"⟩ : Label) ∈ [(⟨1, "a"⟩ : Label), ⟨3, "c"⟩] ∧
      [(⟨1, "a"⟩ : Label), ⟨3, "c"⟩].find? (fun l => l.id == (⟨3, "c"⟩ : Label).id)
        = some ⟨3, "c"⟩) := by
  have h := resolve_labels_spec ⟨[], [⟨1, "a"⟩, ⟨3, "c"⟩]⟩ [3, 2, 1]
  exact ⟨h.1, h.2 ⟨3, "c"⟩ (by decide)⟩

/-- C3 (amended): the relational label `create`, whose control flow
pre-checks the name, fails with `Duplicate` carrying the first existing
label's id and inserts nothing when the name exists; the in-memory label
`create`, by contrast, performs no duplicate check and always succeeds
with a fresh label `⟨size + 1, name⟩`. -/
theorem labelCreate_duplicate (table : List Label) (name : String) (newId : Int)
    (l : Label) (hfind : table.find? (fun x => x.name == name) = some l)
    (repo : LabelMemRepo) :
    (dbLabelCreate table name newId = Except.error (RepositoryError.Duplicate l.id) ∧
      l ∈ table ∧ l.name = name) ∧
    ((labelMemCreate repo name).2 = ⟨(repo.data.length : Int) + 1, name⟩ ∧
      (labelMemCreate repo name).1.data
        = mapInsert repo.data ((repo.data.length : Int) + 1)
            ⟨(repo.data.length : Int) + 1, name⟩) := by
  refine ⟨⟨?_, List.mem_of_find?_eq_some hfind,
    by simpa using List.find?_some hfind⟩, rfl, rfl⟩
  unfold dbLabelCreate
  rw [hfind]

/-- C3 witness: with a table already holding "work" as label 1, the
relational create of "work" fails with `Duplicate 1`; the in-memory
create of "work" on a one-label store returns label ⟨2, "work"⟩. -/
theorem labelCreate_duplicate_witness :
    (dbLabelCreate [⟨1, "work"⟩] "work" 5 = Except.error (RepositoryError.Duplicate 1) ∧
      (⟨1, "work"⟩ : Label) ∈ [(⟨1, "work"⟩ : Label)] ∧
      (⟨1, "work"⟩ : Label).name = "work") ∧
    ((labelMemCreate ⟨[(1, ⟨1, "work"⟩)]⟩ "work").2 = ⟨2, "work"⟩ ∧
      (labelMemCreate ⟨[(1, ⟨1, "work"⟩)]⟩ "work").1.data
        = mapInsert [(1, ⟨1, "work"⟩)] 2 ⟨2, "work"⟩) := by
  exact labelCreate_duplicate [⟨1, "work"⟩] "work" 5 ⟨1, "work"⟩ (by decide)
    ⟨[(1, ⟨1, "work"⟩)]⟩

/-- C3 counterexample: the claim fails on the in-memory backend — creating
a label named "a" while label 1 is already named "a" does not fail with
`Duplicate 1`; it succeeds and stores a second label named "a". -/
theorem labelMemCreate_dup_counterexample :
    (labelMemCreate ⟨[(1, ⟨1, "a"⟩)]⟩ "a").2 = ⟨2, "a"⟩ ∧
    (labelMemCreate ⟨[(1, ⟨1, "a"⟩)]⟩ "a").1 = ⟨[(1, ⟨1, "a"⟩), (2, ⟨2, "a"⟩)]⟩ := by
  constructor <;> rfl

theorem foldEntitiesFrom_append (l1 l2 : List TodoWithLabelFromRow) (acc : List TodoEntity) :
    foldEntitiesFrom acc (l1 ++ l2)
      = (foldEntitiesFrom acc l1).bind (fun a => foldEntitiesFrom a l2) := by
  induction l1 generalizing acc with
  | nil => rfl
  | cons r rest ih =>
    show (foldStep acc r).bind (fun a => foldEntitiesFrom a (rest ++ l2))
      = ((foldStep acc r).bind (fun a => foldEntitiesFrom a rest)).bind
          (fun a => foldEntitiesFrom a l2)
    cases foldStep acc r with
    | none => rfl
    | some a =>
      show foldEntitiesFrom a (rest ++ l2) = _
      exact ih a

theorem mem_dedupFirstAux (l : List Int) :
    ∀ (seen : List Int) (j : Int), j ∈ dedupFirstAux seen l ↔ j ∈ l ∧ j ∉ seen := by
  induction l with
  | nil => intro seen j; simp [dedupFirstAux]
  | cons i rest ih =>
    intro seen j
    by_cases hi : i ∈ seen
    · rw [dedupFirstAux, if_pos hi, ih seen j]
      constructor
      · rintro ⟨h1, h2⟩
        exact ⟨List.mem_cons_of_mem _ h1, h2⟩
      · rintro ⟨h1, h2⟩
        rcases List.mem_cons.mp h1 with rfl | h1
        · exact absurd hi h2
        · exact ⟨h1, h2⟩
    · rw [dedupFirstAux, if_neg hi, List.mem_cons, ih (i :: seen) j]
      constructor
      · rintro (rfl | ⟨h1, h2⟩)
        · exact ⟨List.mem_cons_self _ _, hi⟩
        · exact ⟨List.mem_cons_of_mem _ h1,
            fun hs => h2 (List.mem_cons_of_mem _ hs)⟩
      · rintro ⟨h1, h2⟩
        by_cases hj : j = i
        · exact Or.inl hj
        · rcases List.mem_cons.mp h1 with rfl | h1
          · exact Or.inl rfl
          · exact Or.inr ⟨h1, fun hs => (List.mem_cons.mp hs).elim hj h2⟩

theorem nodup_dedupFirstAux (l : List Int) :
    ∀ seen : List Int, (dedupFirstAux seen l).Nodup := by
  induction l with
  | nil => intro seen; simp [dedupFirstAux]
  | cons i rest ih =>
    intro seen
    by_cases hi : i ∈ seen
    · rw [dedupFirstAux, if_pos hi]
      exact ih seen
    · rw [dedupFirstAux, if_neg hi]
      refine List.nodup_cons.mpr ⟨?_, ih (i :: seen)⟩
      intro hmem
      exact ((mem_dedupFirstAux rest (i :: seen) i).mp hmem).2 (List.mem_cons_self i seen)

theorem dedupFirstAux_append_mem (l : List Int) :
    ∀ (seen : List Int) (i : Int), i ∈ seen ∨ i ∈ l →
      dedupFirstAux seen (l ++ [i]) = dedupFirstAux seen l := by
  induction l with
  | nil =>
    intro seen i h
    rcases h with h | h
    · show dedupFirstAux seen [i] = dedupFirstAux seen []
      simp only [dedupFirstAux]
      rw [if_pos h]
    · cases h
  | cons j rest ih =>
    intro seen i h
    by_cases hj : j ∈ seen
    · rw [List.cons_append, dedupFirstAux, if_pos hj, dedupFirstAux, if_pos hj]
      apply ih
      rcases h with h | h
      · exact Or.inl h
      · rcases List.mem_cons.mp h with rfl | h
        · exact Or.inl hj
        · exact Or.inr h
    · rw [List.cons_append, dedupFirstAux, if_neg hj, dedupFirstAux, if_neg hj]
      congr 1
      apply ih
      rcases h with h | h
      · exact Or.inl (List.mem_cons_of_mem _ h)
      · rcases List.mem_cons.mp h with rfl | h
        · exact Or.inl (List.mem_cons_self _ _)
        · exact Or.inr h

theorem dedupFirstAux_append_fresh (l : List Int) :
    ∀ (seen : List Int) (i : Int), i ∉ seen → i ∉ l →
      dedupFirstAux seen (l ++ [i]) = dedupFirstAux seen l ++ [i] := by
  induction l with
  | nil =>
    intro seen i h1 _
    show dedupFirstAux seen [i] = dedupFirstAux seen [] ++ [i]
    simp only [dedupFirstAux]
    rw [if_neg h1]
    rfl
  | cons j rest ih =>
    intro seen i h1 h2
    have hij : i ≠ j := fun hh => h2 (hh ▸ List.mem_cons_self j rest)
    have h2' : i ∉ rest := fun hh => h2 (List.mem_cons_of_mem _ hh)
    by_cases hj : j ∈ seen
    · rw [List.cons_append, dedupFirstAux, if_pos hj, dedupFirstAux, if_pos hj]
      exact ih seen i h1 h2'
    · rw [List.cons_append, dedupFirstAux, if_neg hj, dedupFirstAux, if_neg hj]
      rw [List.cons_append]
      congr 1
      exact ih (j :: seen) i (fun hs => (List.mem_cons.mp hs).elim hij h1) h2'

theorem mem_dedupFirst (l : List Int) (j : Int) : j ∈ dedupFirst l ↔ j ∈ l := by
  unfold dedupFirst
  rw [mem_dedupFirstAux]
  simp

theorem nodup_dedupFirst (l : List Int) : (dedupFirst l).Nodup :=
  nodup_dedupFirstAux l []

theorem dedupFirst_append_mem (l : List Int) (i : Int) (h : i ∈ l) :
    dedupFirst (l ++ [i]) = dedupFirst l :=
  dedupFirstAux_append_mem l [] i (Or.inr h)

theorem dedupFirst_append_fresh (l : List Int) (i : Int) (h : i ∉ l) :
    dedupFirst (l ++ [i]) = dedupFirst l ++ [i] :=
  dedupFirstAux_append_fresh l [] i (by simp) h

theorem find?_append_left {α : Type} (l1 l2 : List α) (q : α → Bool) (a : α)
    (h : l1.find? q = some a) : (l1 ++ l2).find? q = some a := by
  rw [List.find?_append, h]
  rfl

theorem rowLabels_append (rows : List TodoWithLabelFromRow) (r : TodoWithLabelFromRow)
    (j : Int) :
    rowLabels (rows ++ [r]) j
      = rowLabels rows j ++ (if r.id == j then (rowLabel r).toList else []) := by
  unfold rowLabels
  rw [List.filter_append, List.filterMap_append]
  congr 1
  by_cases hr : (r.id == j) = true
  · rw [if_pos hr, List.filter_cons, if_pos hr]
    show List.filterMap rowLabel [r] = (rowLabel r).toList
    cases hrl : rowLabel r <;> simp [List.filterMap_cons, hrl]
  · rw [if_neg hr, List.filter_cons, if_neg hr]
    rfl

theorem specEntity_id (rows : List TodoWithLabelFromRow) (j : Int) :
    (specEntity rows j).id = j := by
  unfold specEntity
  cases rows.find? (fun x => x.id == j) <;> rfl

theorem find?_of_mem_map_id (rows : List TodoWithLabelFromRow) (j : Int)
    (h : j ∈ rows.map TodoWithLabelFromRow.id) :
    ∃ r0, rows.find? (fun x => x.id == j) = some r0 := by
  obtain ⟨r, hr, rfl⟩ := List.mem_map.mp h
  cases hf : rows.find? (fun x => x.id == r.id) with
  | some r0 => exact ⟨r0, rfl⟩
  | none =>
    have := List.find?_eq_none.mp hf r hr
    simp at this

theorem specEntity_append_ne (rows : List TodoWithLabelFromRow)
    (r : TodoWithLabelFromRow) (j : Int)
    (hj : j ∈ rows.map TodoWithLabelFromRow.id) (hne : r.id ≠ j) :
    specEntity (rows ++ [r]) j = specEntity rows j := by
  obtain ⟨r0, hf⟩ := find?_of_mem_map_id rows j hj
  simp only [specEntity, find?_append_left _ _ _ _ hf, hf]
  rw [rowLabels_append]
  have hne' : (r.id == j) = false := by simpa using hne
  simp [hne']

theorem specEntity_append_self_mem (rows : List TodoWithLabelFromRow)
    (r : TodoWithLabelFromRow) (hj : r.id ∈ rows.map TodoWithLabelFromRow.id) :
    specEntity (rows ++ [r]) r.id
      = { specEntity rows r.id with
          labels := (specEntity rows r.id).labels ++ (rowLabel r).toList } := by
  obtain ⟨r0, hf⟩ := find?_of_mem_map_id rows r.id hj
  simp only [specEntity, find?_append_left _ _ _ _ hf, hf]
  rw [rowLabels_append]
  simp

theorem specEntity_append_self_fresh (rows : List TodoWithLabelFromRow)
    (r : TodoWithLabelFromRow) (hj : r.id ∉ rows.map TodoWithLabelFromRow.id) :
    specEntity (rows ++ [r]) r.id = ⟨r.id, r.text, r.completed, (rowLabel r).toList⟩ := by
  have hf : rows.find? (fun x => x.id == r.id) = none := by
    rw [List.find?_eq_none]
    intro x hx hxx
    exact hj (List.mem_map.mpr ⟨x, hx, by simpa using hxx⟩)
  have hfind : (rows ++ [r]).find? (fun x => x.id == r.id) = some r := by
    rw [List.find?_append, hf]
    simp [List.find?]
  have hrl : rowLabels rows r.id = [] := by
    unfold rowLabels
    rw [List.filter_eq_nil_iff.mpr, List.filterMap_nil]
    intro x hx hxx
    exact hj (List.mem_map.mpr ⟨x, hx, by simpa using hxx⟩)
  simp only [specEntity, hfind]
  rw [rowLabels_append, hrl]
  simp

theorem foldSpec_any_iff (rows : List TodoWithLabelFromRow) (c : Int) :
    (foldSpec rows).any (fun t => t.id == c) = true
      ↔ c ∈ rows.map TodoWithLabelFromRow.id := by
  rw [List.any_eq_true]
  constructor
  · rintro ⟨t, ht, hpred⟩
    obtain ⟨j, hj, rfl⟩ := List.mem_map.mp ht
    have hjc : j = c := by simpa [specEntity_id] using hpred
    subst hjc
    exact (mem_dedupFirst _ _).mp hj
  · intro hc
    refine ⟨specEntity rows c,
      List.mem_map_of_mem _ ((mem_dedupFirst _ _).mpr hc), ?_⟩
    simp [specEntity_id]

theorem pushLabel_map (ids : List Int) (f : Int → TodoEntity) (c : Int) (lb : Label)
    (hids : ∀ j ∈ ids, (f j).id = j) (hnd : ids.Nodup) (hc : c ∈ ids) :
    pushLabel (ids.map f) c lb
      = ids.map (fun j =>
          if j = c then { f j with labels := (f j).labels ++ [lb] } else f j) := by
  induction ids with
  | nil => cases hc
  | cons j rest ih =>
    rw [List.map_cons, List.map_cons, pushLabel]
    by_cases hj : j = c
    · subst hj
      rw [if_pos (hids j (List.mem_cons_self j rest)), if_pos rfl]
      congr 1
      apply List.map_congr_left
      intro a ha
      have hne : a ≠ j := fun hh => (List.nodup_cons.mp hnd).1 (hh ▸ ha)
      rw [if_neg hne]
    · rw [show (f j).id = j from hids j (List.mem_cons_self j rest), if_neg hj, if_neg hj]
      congr 1
      exact ih (fun a ha => hids a (List.mem_cons_of_mem _ ha)) (List.nodup_cons.mp hnd).2
        ((List.mem_cons.mp hc).resolve_left (fun hh => hj hh.symm))

theorem foldStep_foldSpec (p : List TodoWithLabelFromRow) (r : TodoWithLabelFromRow)
    (hwf : r.label_id.isSome = true → r.label_name.isSome = true) :
    foldStep (foldSpec p) r = some (foldSpec (p ++ [r])) := by
  have hids : (p ++ [r]).map TodoWithLabelFromRow.id
      = p.map TodoWithLabelFromRow.id ++ [r.id] := by simp
  by_cases hmem : r.id ∈ p.map TodoWithLabelFromRow.id
  · have hany : (foldSpec p).any (fun t => t.id == r.id) = true :=
      (foldSpec_any_iff p r.id).mpr hmem
    have hded : dedupFirst ((p ++ [r]).map TodoWithLabelFromRow.id)
        = dedupFirst (p.map TodoWithLabelFromRow.id) := by
      rw [hids]
      exact dedupFirst_append_mem _ _ hmem
    unfold foldStep
    rw [if_pos hany]
    cases hlid : r.label_id with
    | none =>
      have hkey : foldSpec (p ++ [r]) = foldSpec p := by
        unfold foldSpec
        rw [hded]
        apply List.map_congr_left
        intro j hj
        have hj' : j ∈ p.map TodoWithLabelFromRow.id := (mem_dedupFirst _ _).mp hj
        by_cases hrj : r.id = j
        · subst hrj
          rw [specEntity_append_self_mem p r hmem]
          have hnone : rowLabel r = none := by unfold rowLabel; rw [hlid]
          simp [hnone]
        · exact specEntity_append_ne p r j hj' hrj
      rw [hkey]
    | some lid =>
      cases hlnm : r.label_name with
      | none => exact absurd (hwf (by simp [hlid])) (by simp [hlnm])
      | some nm =>
        have hsome : rowLabel r = some ⟨lid, nm⟩ := by unfold rowLabel; rw [hlid, hlnm]
        have hkey : foldSpec (p ++ [r]) = pushLabel (foldSpec p) r.id ⟨lid, nm⟩ := by
          unfold foldSpec
          rw [hded]
          rw [pushLabel_map (dedupFirst (p.map TodoWithLabelFromRow.id)) (specEntity p)
            r.id ⟨lid, nm⟩ (fun j _ => specEntity_id p j) (nodup_dedupFirst _)
            ((mem_dedupFirst _ _).mpr hmem)]
          apply List.map_congr_left
          intro j hj
          have hj' : j ∈ p.map TodoWithLabelFromRow.id := (mem_dedupFirst _ _).mp hj
          by_cases hrj : j = r.id
          · subst hrj
            rw [if_pos rfl, specEntity_append_self_mem p r hmem]
            simp [hsome]
          · rw [if_neg hrj]
            exact specEntity_append_ne p r j hj' (fun hh => hrj hh.symm)
        rw [hkey]
  · have hany : (foldSpec p).any (fun t => t.id == r.id) = false := by
      cases hb : (foldSpec p).any (fun t => t.id == r.id) with
      | false => rfl
      | true => exact absurd ((foldSpec_any_iff p r.id).mp hb) hmem
    have hded : dedupFirst ((p ++ [r]).map TodoWithLabelFromRow.id)
        = dedupFirst (p.map TodoWithLabelFromRow.id) ++ [r.id] := by
      rw [hids]
      exact dedupFirst_append_fresh _ _ hmem
    have hmap : foldSpec (p ++ [r])
        = foldSpec p ++ [specEntity (p ++ [r]) r.id] := by
      unfold foldSpec
      rw [hded, List.map_append]
      congr 1
      apply List.map_congr_left
      intro j hj
      have hj' : j ∈ p.map TodoWithLabelFromRow.id := (mem_dedupFirst _ _).mp hj
      exact specEntity_append_ne p r j hj' (fun hh => hmem (hh ▸ hj'))
    unfold foldStep
    rw [if_neg (by simp [hany])]
    cases hlid : r.label_id with
    | none =>
      have hse : specEntity (p ++ [r]) r.id = ⟨r.id, r.text, r.completed, []⟩ := by
        rw [specEntity_append_self_fresh p r hmem]
        have hnone : rowLabel r = none := by unfold rowLabel; rw [hlid]
        rw [hnone]
        rfl
      rw [hmap, hse]
    | some lid =>
      cases hlnm : r.label_name with
      | none => exact absurd (hwf (by simp [hlid])) (by simp [hlnm])
      | some nm =>
        have hsome : rowLabel r = some ⟨lid, nm⟩ := by unfold rowLabel; rw [hlid, hlnm]
        have hse : specEntity (p ++ [r]) r.id
            = ⟨r.id, r.text, r.completed, [⟨lid, nm⟩]⟩ := by
          rw [specEntity_append_self_fresh p r hmem, hsome]
          rfl
        rw [hmap, hse]

theorem fold_entities_eq_foldSpec (rows : List TodoWithLabelFromRow) (hwf : WfRows rows) :
    fold_entities rows = some (foldSpec rows) := by
  induction rows using List.reverseRecOn with
  | nil => rfl
  | append_singleton p r ih =>
    have hwfp : WfRows p := fun x hx => hwf x (List.mem_append.mpr (Or.inl hx))
    have hwfr := hwf r (List.mem_append.mpr (Or.inr (List.mem_singleton_self r)))
    unfold fold_entities at ih ⊢
    rw [foldEntitiesFrom_append, ih hwfp]
    show foldEntitiesFrom (foldSpec p) [r] = _
    show (foldStep (foldSpec p) r).bind (fun a => foldEntitiesFrom a []) = _
    rw [foldStep_foldSpec p r hwfr]
    rfl

/-- C1: on any row list satisfying the join precondition, `fold_entities`
returns exactly one entity per distinct todo id, in first-occurrence
order with no id duplicated, each entity carrying the scalar fields of
the first row bearing its id and exactly the non-null label pairs of the
rows bearing that id, in input order (`specEntity`); in particular the
empty input yields the empty output and a single null-label row yields
one entity with no labels. -/
theorem fold_entities_correct (rows : List TodoWithLabelFromRow) (hwf : WfRows rows) :
    fold_entities rows = some (foldSpec rows) ∧
    (foldSpec rows).map TodoEntity.id = dedupFirst (rows.map TodoWithLabelFromRow.id) ∧
    ((foldSpec rows).map TodoEntity.id).Nodup ∧
    ∀ e ∈ foldSpec rows, e = specEntity rows e.id := by
  have hmapid : (foldSpec rows).map TodoEntity.id
      = dedupFirst (rows.map TodoWithLabelFromRow.id) := by
    unfold foldSpec
    rw [List.map_map]
    have : (dedupFirst (rows.map TodoWithLabelFromRow.id)).map
        (TodoEntity.id ∘ specEntity rows)
        = (dedupFirst (rows.map TodoWithLabelFromRow.id)).map (fun j => j) :=
      List.map_congr_left (fun j _ => specEntity_id rows j)
    rw [this, List.map_id']
  refine ⟨fold_entities_eq_foldSpec rows hwf, hmapid, ?_, ?_⟩
  · rw [hmapid]
    exact nodup_dedupFirst _
  · intro e he
    obtain ⟨j, _, rfl⟩ := List.mem_map.mp he
    rw [specEntity_id]

/-- C1 witness: the precondition holds for a two-row input (todo 1 with
label 7, todo 2 with a null label pair) and the fold produces the two
expected entities; the null-label todo gets an empty label list. -/
theorem fold_entities_correct_witness :
    WfRows [⟨1, "a", false, some 7, some "L"⟩, ⟨2, "b", true, none, none⟩] ∧
    fold_entities
        [(⟨1, "a", false, some 7, some "L"⟩ : TodoWithLabelFromRow),
         ⟨2, "b", true, none, none⟩]
      = some (foldSpec
          [⟨1, "a", false, some 7, some "L"⟩, ⟨2, "b", true, none, none⟩]) ∧
    foldSpec [(⟨1, "a", false, some 7, some "L"⟩ : TodoWithLabelFromRow),
        ⟨2, "b", true, none, none⟩]
      = [⟨1, "a", false, [⟨7, "L"⟩]⟩, ⟨2, "b", true, []⟩] ∧
    fold_entities ([] : List TodoWithLabelFromRow) = some [] := by
  have hwf : WfRows [⟨1, "a", false, some 7, some "L"⟩, ⟨2, "b", true, none, none⟩] := by
    intro r hr
    rcases List.mem_cons.mp hr with rfl | hr
    · intro _; rfl
    · rw [List.mem_singleton.mp hr]
      intro hs
      cases hs
  exact ⟨hwf,
    (fold_entities_correct
      [⟨1, "a", false, some 7, some "L"⟩, ⟨2, "b", true, none, none⟩] hwf).1,
    by rfl, rfl⟩

/-- C7: under the join precondition (a non-null `label_id` implies a
non-null `label_name`), `fold_entities` is total — the branch that
unwraps `label_name` never sees a null value, i.e. the fold never hits
the `none` (panic) case and always returns a result list. -/
theorem fold_entities_total (rows : List TodoWithLabelFromRow) (hwf : WfRows rows) :
    ∃ res, fold_entities rows = some res :=
  ⟨foldSpec rows, fold_entities_eq_foldSpec rows hwf⟩

/-- C7 witness: a concrete well-formed input on which the fold returns a
result. -/
theorem fold_entities_total_witness :
    WfRows [⟨2, "b", true, some 5, some "L"⟩] ∧
    ∃ res, fold_entities [(⟨2, "b", true, some 5, some "L"⟩ : TodoWithLabelFromRow)]
      = some res := by
  have hwf : WfRows [⟨2, "b", true, some 5, some "L"⟩] := by
    intro r hr _
    rw [List.mem_singleton.mp hr]
    rfl
  exact ⟨hwf, fold_entities_total _ hwf⟩

theorem any_fresh_key_false {α : Type} (s : List (Int × α)) (hg : goodKeys s) :
    s.any (fun p => p.1 == ((s.length : Int) + 1)) = false := by
  rw [List.any_eq_false]
  intro p hp hpk
  have hb := (hg.1 p hp).2
  have hp1 : p.1 = (s.length : Int) + 1 := by simpa using hpk
  omega

theorem memCreate_store (repo : MemRepo) (p : CreateTodo) (hg : goodKeys repo.store) :
    (memCreate repo p).1.store
      = repo.store ++ [((repo.store.length : Int) + 1, (memCreate repo p).2)] := by
  show mapInsert repo.store ((repo.store.length : Int) + 1) (memCreate repo p).2 = _
  unfold mapInsert
  rw [if_neg (by simp [any_fresh_key_false repo.store hg])]

theorem goodKeys_append {α : Type} (s : List (Int × α)) (v : α) (hg : goodKeys s) :
    goodKeys (s ++ [((s.length : Int) + 1, v)]) := by
  constructor
  · intro p hp
    rcases List.mem_append.mp hp with h | h
    · have hb := hg.1 p h
      rw [List.length_append]
      push_cast
      omega
    · have hp1 : p.1 = (s.length : Int) + 1 := by
        have hp' : p = ((s.length : Int) + 1, v) := by simpa using h
        rw [hp']
      rw [hp1]
      simp only [List.length_append, List.length_singleton]
      push_cast
      omega
  · rw [List.map_append, List.nodup_append]
    refine ⟨hg.2, List.nodup_singleton _, ?_⟩
    intro a ha hb
    have hb' : a = (s.length : Int) + 1 := by simpa using hb
    obtain ⟨p, hp, rfl⟩ := List.mem_map.mp ha
    have := (hg.1 p hp).2
    omega

theorem mapInsert_existing_keys {α : Type} (s : List (Int × α)) (k : Int) (v : α)
    (h : s.any (fun p => p.1 == k) = true) :
    (mapInsert s k v).map Prod.fst = s.map Prod.fst := by
  unfold mapInsert
  rw [if_pos h, List.map_map]
  apply List.map_congr_left
  intro p _
  by_cases hc : (p.1 == k) = true
  · have hpk : p.1 = k := by simpa using hc
    simp [hc, hpk]
  · have hne : p.1 ≠ k := by simpa using hc
    simp [hne]

theorem goodKeys_of_keys_eq {α β : Type} (s : List (Int × α)) (t : List (Int × β))
    (hkeys : t.map Prod.fst = s.map Prod.fst) (hg : goodKeys s) : goodKeys t := by
  have hlen : t.length = s.length := by
    have := congrArg List.length hkeys
    simpa using this
  constructor
  · intro p hp
    have hp1 : p.1 ∈ s.map Prod.fst := by
      rw [← hkeys]
      exact List.mem_map_of_mem _ hp
    obtain ⟨q, hq, hq1⟩ := List.mem_map.mp hp1
    have hb := hg.1 q hq
    rw [hlen]
    omega
  · rw [hkeys]
    exact hg.2

theorem memUpdate_goodKeys (repo : MemRepo) (i : Int) (u : UpdateTodo)
    (hg : goodKeys repo.store) :
    goodKeys (memUpdate repo i u).1.store ∧
    (memUpdate repo i u).1.store.length = repo.store.length := by
  cases hgt : mapGet repo.store i with
  | none =>
    unfold memUpdate
    rw [hgt]
    exact ⟨hg, rfl⟩
  | some t =>
    unfold memUpdate
    rw [hgt]
    have hany := any_true_of_mapGet_some repo.store i t hgt
    have hkeys := mapInsert_existing_keys repo.store i
      (⟨i, u.text.getD t.text, u.completed.getD t.completed,
        match u.label_ids with
        | some v => resolve_labels repo v
        | none => t.labels⟩ : TodoEntity) hany
    refine ⟨goodKeys_of_keys_eq _ _ hkeys hg, ?_⟩
    have := congrArg List.length hkeys
    simpa using this

theorem runOps_created_ids (ops : List Op) :
    ∀ s : MemRepo, (∀ i, Op.delete i ∉ ops) → goodKeys s.store →
      List.Pairwise (· < ·) (runOps s ops).2 ∧
        ∀ j ∈ (runOps s ops).2, (s.store.length : Int) < j := by
  induction ops with
  | nil =>
    intro s _ _
    exact ⟨List.Pairwise.nil, fun j hj => absurd hj (List.not_mem_nil j)⟩
  | cons op rest ih =>
    intro s hnd hg
    cases op with
    | delete i => exact absurd (List.mem_cons_self _ _) (hnd i)
    | create p =>
      have hnd' : ∀ i, Op.delete i ∉ rest := fun i h => hnd i (List.mem_cons_of_mem _ h)
      have hstore := memCreate_store s p hg
      have hg' : goodKeys (memCreate s p).1.store := by
        rw [hstore]
        exact goodKeys_append _ _ hg
      have hlen : (memCreate s p).1.store.length = s.store.length + 1 := by
        rw [hstore]
        simp
      obtain ⟨hpw, hlb⟩ := ih (memCreate s p).1 hnd' hg'
      have hid : (memCreate s p).2.id = (s.store.length : Int) + 1 := rfl
      constructor
      · show List.Pairwise (· < ·)
          ((memCreate s p).2.id :: (runOps (memCreate s p).1 rest).2)
        refine List.pairwise_cons.mpr ⟨?_, hpw⟩
        intro j hj
        have hbig := hlb j hj
        rw [hlen] at hbig
        rw [hid]
        push_cast at hbig
        omega
      · intro j hj
        rcases List.mem_cons.mp hj with rfl | hj
        · rw [hid]
          omega
        · have hbig := hlb j hj
          rw [hlen] at hbig
          push_cast at hbig
          omega
    | update i u =>
      have hnd' : ∀ k, Op.delete k ∉ rest := fun k h => hnd k (List.mem_cons_of_mem _ h)
      obtain ⟨hg', hlen⟩ := memUpdate_goodKeys s i u hg
      obtain ⟨hpw, hlb⟩ := ih (memUpdate s i u).1 hnd' hg'
      refine ⟨hpw, ?_⟩
      intro j hj
      have hbig := hlb j hj
      rw [hlen] at hbig
      exact hbig

/-- C2 (amended): over every sequence of create and update operations
(no deletes) run sequentially from a store whose keys are exactly
1..size — in particular from the empty store — the ids assigned by
`create` are strictly increasing and never repeated. The unrestricted
claim fails: since the id is the current store size + 1, a create
performed after a delete can return an id an earlier create already
returned. -/
theorem memCreate_ids_monotone (ops : List Op) (s : MemRepo)
    (hnd : ∀ i, Op.delete i ∉ ops) (hg : goodKeys s.store) :
    List.Pairwise (· < ·) (runOps s ops).2 ∧ (runOps s ops).2.Nodup := by
  obtain ⟨hpw, _⟩ := runOps_created_ids ops s hnd hg
  exact ⟨hpw, hpw.imp (fun hab => by omega)⟩

/-- C2 witness: from the empty store, create, update, create assign ids
1 and 2, strictly increasing and distinct. -/
theorem memCreate_ids_monotone_witness :
    List.Pairwise (· < ·)
      (runOps ⟨[], []⟩
        [Op.create ⟨"a", []⟩, Op.update 1 ⟨none, some true, none⟩,
         Op.create ⟨"b", []⟩]).2 ∧
    (runOps (⟨[], []⟩ : MemRepo)
        [Op.create ⟨"a", []⟩, Op.update 1 ⟨none, some true, none⟩,
         Op.create ⟨"b", []⟩]).2.Nodup := by
  apply memCreate_ids_monotone
  · intro i h
    simp at h
  · exact ⟨fun p hp => absurd hp (List.not_mem_nil p), by simp⟩

/-- C2 counterexample: executed sequentially from the empty store, the
first create returns id 1, deleting it succeeds, and the next create
returns id 1 again — an id assigned earlier is reassigned after a
delete, refuting the unrestricted claim. -/
theorem memCreate_id_reuse_counterexample :
    (memCreate (⟨[], []⟩ : MemRepo) ⟨"a", []⟩).2.id = 1 ∧
    (memDelete (memCreate (⟨[], []⟩ : MemRepo) ⟨"a", []⟩).1 1).2 = Except.ok () ∧
    (memCreate (memDelete (memCreate (⟨[], []⟩ : MemRepo) ⟨"a", []⟩).1 1).1
        ⟨"b", []⟩).2.id = 1 := by
  refine ⟨rfl, rfl, rfl⟩

end TodoApp
